import Mathlib

/-!
Shallow embedding of `aeronet/dataset/io.py`: the sequential block sampler
`SequentialSampler._compute_blocks`, the single- and multi-channel window
writers `SampleWindowWriter.write` and `SampleCollectionWindowWriter.write`,
and the abstract `Predictor.predict`.

Python integers are modelled as `Int`; `range(start, stop, step)` with a
positive step as the list `start, start + step, …` of values below `stop`;
a 2-D numpy array as a rectangular `List (List Int)`; a `None`-or-list
argument as an `Option`; the effect of `rasterio`'s `dst.write` as a record
of the written data and target window.
-/

/-- Length of Python `range(start, stop, step)` for a positive `step`:
the number of values `start + step * k` that are below `stop`,
that is `max 0 (ceil ((stop - start) / step))`. -/
def pyRangeLen (start stop step : Int) : Nat :=
  ((stop - start).toNat + (step.toNat - 1)) / step.toNat

/-- Python `range(start, stop, step)` for a positive `step`. -/
def pyRange (start stop step : Int) : List Int :=
  (List.range (pyRangeLen start stop step)).map (fun (k : Nat) => start + step * (k : Int))

/-- The part of a `BandCollection` that `SequentialSampler._compute_blocks`
reads: the raster extent `height × width`. -/
structure BandCollection where
  height : Int
  width : Int
  deriving DecidableEq, Repr

/-- One block dictionary appended by `SequentialSampler._compute_blocks`:
`{'x': x, 'y': y, 'height': height, 'width': width,
  'bounds': [[bound, bottom_y_bound], [bound, rigth_x_bound]]}`,
with the `bounds` list of lists modelled as `((top, bottom), (left, right))`. -/
structure Block where
  x : Int
  y : Int
  height : Int
  width : Int
  bounds : (Int × Int) × (Int × Int)
  deriving DecidableEq, Repr

/-- The fields of `SequentialSampler` that `_compute_blocks` and `__len__`
use: the band collection and the constructor arguments `sample_size`
(a `(height, width)` pair) and `bound`. -/
structure SequentialSampler where
  band_collection : BandCollection
  sample_size : Int × Int
  bound : Int
  deriving DecidableEq, Repr

/-- Transcription of `SequentialSampler._compute_blocks`:
nested loops `for y in range(-bound, height, h)` (outer) and
`for x in range(-bound, width, w)` (inner) appending one block per `(x, y)`. -/
def SequentialSampler.compute_blocks (s : SequentialSampler) : List Block :=
  let h := s.sample_size.1
  let w := s.sample_size.2
  let height := h + 2 * s.bound
  let width := w + 2 * s.bound
  (pyRange (-s.bound) s.band_collection.height h).flatMap fun y =>
    (pyRange (-s.bound) s.band_collection.width w).map fun x =>
      { x := x, y := y, height := height, width := width,
        bounds := ((s.bound, max s.bound (y + height - s.band_collection.height)),
                   (s.bound, max s.bound (x + width - s.band_collection.width))) }

/-- Transcription of `SequentialSampler.__len__`: `len(self.blocks)` where
`self.blocks = self._compute_blocks()`. -/
def SequentialSampler.len (s : SequentialSampler) : Nat :=
  s.compute_blocks.length

/-- The block that `_compute_blocks` appends for loop offsets `y` (outer) and
`x` (inner), written as a standalone function of the sampler. -/
def SequentialSampler.mkBlock (s : SequentialSampler) (y x : Int) : Block :=
  { x := x, y := y,
    height := s.sample_size.1 + 2 * s.bound,
    width := s.sample_size.2 + 2 * s.bound,
    bounds := ((s.bound,
                max s.bound (y + (s.sample_size.1 + 2 * s.bound) - s.band_collection.height)),
               (s.bound,
                max s.bound (x + (s.sample_size.2 + 2 * s.bound) - s.band_collection.width))) }

/-- Number of iterations of the outer (`y`) loop of `_compute_blocks`. -/
def SequentialSampler.yCount (s : SequentialSampler) : Nat :=
  pyRangeLen (-s.bound) s.band_collection.height s.sample_size.1

/-- Number of iterations of the inner (`x`) loop of `_compute_blocks`. -/
def SequentialSampler.xCount (s : SequentialSampler) : Nat :=
  pyRangeLen (-s.bound) s.band_collection.width s.sample_size.2

/-- The trimmed write region of a block: the rectangle
`[y + top, y + height - bottom) × [x + left, x + width - right)` determined
by its `bounds = ((top, bottom), (left, right))`; this is exactly the window
that remains when the block is passed to `SampleWindowWriter.write`. -/
def Block.inTrimmed (blk : Block) (r c : Int) : Prop :=
  blk.y + blk.bounds.1.1 ≤ r ∧ r < blk.y + blk.height - blk.bounds.1.2 ∧
  blk.x + blk.bounds.2.1 ≤ c ∧ c < blk.x + blk.width - blk.bounds.2.2

instance (blk : Block) (r c : Int) : Decidable (blk.inTrimmed r c) := by
  unfold Block.inTrimmed
  infer_instance

/-- Effective index of a Python slice endpoint `i` for a sequence of length
`n`: a negative endpoint counts from the end, and endpoints are clamped to
`[0, n]`. -/
def pyIdx (n : Nat) (i : Int) : Nat :=
  if i < 0 then (max ((n : Int) + i) 0).toNat else (min i (n : Int)).toNat

/-- Python slice `l[i:j]` with step 1. -/
def pySlice {α : Type} (l : List α) (i j : Int) : List α :=
  (l.take (pyIdx l.length j)).drop (pyIdx l.length i)

/-- Numpy `raster.shape[0]` for a 2-D raster. -/
def shape0 (raster : List (List Int)) : Int :=
  (raster.length : Int)

/-- Numpy `raster.shape[1]` for a rectangular 2-D raster. -/
def shape1 (raster : List (List Int)) : Int :=
  ((raster.headD []).length : Int)

/-- Numpy basic slice `raster[i:j, i2:j2]` on a 2-D raster. -/
def numpySlice2 (raster : List (List Int)) (i j i2 j2 : Int) : List (List Int) :=
  (pySlice raster i j).map fun row => pySlice row i2 j2

/-- The effect of `self.dst.write(raster, 1, window=((y, y + height), (x, x + width)))`:
the written data together with the destination window. -/
structure WriteOp where
  data : List (List Int)
  window : (Int × Int) × (Int × Int)
  deriving DecidableEq, Repr

/-- Transcription of `SampleWindowWriter.write(self, raster, x, y, width, height, bounds=None)`.
The `bounds` argument `[[top, bottom], [left, right]]` is modelled as an
`Option ((Int × Int) × (Int × Int))`, with `none` for the falsy `None`
(a non-empty list such as `[[0, 0], [0, 0]]` is truthy, as in Python).
The body ends with the `dst.write` call and has no `return` statement, so the
call returns Python `None`, modelled by the `Option Unit` component. -/
def SampleWindowWriter.write (raster : List (List Int)) (x y width height : Int)
    (bounds : Option ((Int × Int) × (Int × Int))) : WriteOp × Option Unit :=
  match bounds with
  | some bs =>
      let raster' := numpySlice2 raster bs.1.1 (shape0 raster - bs.1.2)
        bs.2.1 (shape1 raster - bs.2.2)
      let x' := x + bs.2.1
      let y' := y + bs.1.1
      let width' := width - bs.2.2 - bs.2.1
      let height' := height - bs.1.2 - bs.1.1
      ({ data := raster', window := ((y', y' + height'), (x', x' + width')) }, none)
  | none =>
      ({ data := raster, window := ((y, y + height), (x, x + width)) }, none)

/-- Transcription of `SampleCollectionWindowWriter.write(self, raster, x, y, height, width, bounds=None)`:
`for i in range(len(self.channels)): self.writers[i].write(raster[i], x, y, height, width, bounds=bounds)`.
The arguments after `raster[i]` are passed positionally, so they fill the
slots `x, y, width, height` of `SampleWindowWriter.write` in that order.
The result lists the write effect received by each of the `channels` writers. -/
def SampleCollectionWindowWriter.write (channels : Nat) (raster : List (List (List Int)))
    (x y height width : Int) (bounds : Option ((Int × Int) × (Int × Int))) :
    List (WriteOp × Option Unit) :=
  (List.range channels).map fun i =>
    SampleWindowWriter.write (raster.getD i []) x y height width bounds

/-- Python exceptions raised by the embedded fragment. -/
inductive PyExc where
  | typeError
  | notImplementedError
  deriving DecidableEq, Repr

/-- Transcription of `Predictor.predict`, whose body is
`raise NotImplemented('You should implement the predict function in your inherited class')`.
`NotImplemented` is Python's non-callable singleton, not the exception class
`NotImplementedError`, so evaluating the call `NotImplemented(...)` itself
raises `TypeError: 'NotImplementedType' object is not callable`; the method
therefore terminates with a `TypeError` for every sample and keyword
arguments. -/
def Predictor.predict (sample : List (List Int)) : Except PyExc (List (List Int)) :=
  Except.error PyExc.typeError

/-! Helper lemmas about `pyRange` and `_compute_blocks`. -/

/-- A natural `k` indexes into `range(start, stop, step)` exactly when the
`k`-th value `start + step * k` is below `stop`. -/
theorem lt_pyRangeLen {start stop step : Int} (hstep : 0 < step) (k : Nat) :
    k < pyRangeLen start stop step ↔ start + step * (k : Int) < stop := by
  obtain ⟨s, hs, rfl⟩ : ∃ s : Nat, 0 < s ∧ step = (s : Int) := ⟨step.toNat, by omega, by omega⟩
  unfold pyRangeLen
  rcases le_or_lt stop start with hle | hlt
  · have hd : (stop - start).toNat = 0 := by omega
    rw [hd]
    constructor
    · intro h
      have hz : (0 + ((s:Int).toNat - 1)) / (s:Int).toNat = 0 :=
        Nat.div_eq_of_lt (by omega)
      omega
    · intro h
      exfalso
      have h1 : (0:Int) ≤ (s:Int) * (k:Int) := by positivity
      linarith
  · have hd : ((stop - start).toNat : Int) = stop - start := by omega
    have hts : (s:Int).toNat = s := by omega
    rw [hts]
    have key : k < ((stop - start).toNat + (s - 1)) / s ↔ s * k < (stop - start).toNat := by
      rw [Nat.lt_iff_add_one_le, Nat.le_div_iff_mul_le hs]
      have e1 : (k + 1) * s = s * k + s := by ring
      rw [e1]
      generalize s * k = t
      omega
    rw [key]
    constructor
    · intro h
      have h2 : ((s * k : Nat) : Int) < ((stop - start).toNat : Int) := by exact_mod_cast h
      push_cast at h2
      linarith
    · intro h
      have h2 : ((s * k : Nat) : Int) < ((stop - start).toNat : Int) := by
        push_cast
        linarith
      exact_mod_cast h2

/-- Membership in the model of Python `range`. -/
theorem mem_pyRange {start stop step v : Int} (hstep : 0 < step) :
    v ∈ pyRange start stop step ↔
      ∃ k : Nat, v = start + step * (k : Int) ∧ start + step * (k : Int) < stop := by
  unfold pyRange
  simp only [List.mem_map, List.mem_range]
  constructor
  · rintro ⟨k, hk, rfl⟩
    exact ⟨k, rfl, (lt_pyRangeLen hstep k).mp hk⟩
  · rintro ⟨k, rfl, hlt⟩
    exact ⟨k, (lt_pyRangeLen hstep k).mpr hlt, rfl⟩

theorem length_pyRange (start stop step : Int) :
    (pyRange start stop step).length = pyRangeLen start stop step := by
  simp [pyRange]

/-- Flattening two nested `List.range` loops into a single row-major index. -/
theorem range_flatMap_range {α : Type} (a c : Nat) (f : Nat → Nat → α) :
    (List.range a).flatMap (fun k => (List.range c).map (f k)) =
      (List.range (a * c)).map (fun i => f (i / c) (i % c)) := by
  rcases Nat.eq_zero_or_pos c with hc | hc
  · subst hc
    simp
  · induction a with
    | zero => simp
    | succ n ih =>
        rw [List.range_succ, List.flatMap_append, ih, Nat.succ_mul, List.range_add,
          List.map_append]
        congr 1
        · simp only [List.flatMap_cons, List.flatMap_nil, List.append_nil, List.map_map]
          apply List.map_congr_left
          intro t ht
          rw [List.mem_range] at ht
          have hmul : n * c + t = c * n + t := by ring
          simp only [Function.comp_apply, hmul]
          rw [Nat.mul_add_div hc, Nat.div_eq_of_lt ht, Nat.mul_add_mod, Nat.mod_eq_of_lt ht,
            Nat.add_zero]

/-- `_compute_blocks` as a flat map over the two loop ranges. -/
theorem compute_blocks_eq_flatMap (s : SequentialSampler) :
    s.compute_blocks =
      (pyRange (-s.bound) s.band_collection.height s.sample_size.1).flatMap fun y =>
        (pyRange (-s.bound) s.band_collection.width s.sample_size.2).map fun x =>
          s.mkBlock y x := rfl

/-- `_compute_blocks` in row-major indexed form: block `i` sits in loop row
`i / xCount` and loop column `i % xCount`. -/
theorem compute_blocks_eq_map (s : SequentialSampler) :
    s.compute_blocks = (List.range (s.yCount * s.xCount)).map fun i =>
      s.mkBlock (-s.bound + s.sample_size.1 * ((i / s.xCount : Nat) : Int))
        (-s.bound + s.sample_size.2 * ((i % s.xCount : Nat) : Int)) := by
  rw [compute_blocks_eq_flatMap]
  unfold pyRange SequentialSampler.yCount SequentialSampler.xCount
  rw [List.flatMap_map]
  simp only [Function.comp_def, List.map_map]
  exact range_flatMap_range _ _ _

/-- A block is produced by `_compute_blocks` exactly when it is the block of
some loop indices `k` (outer, `y`) and `j` (inner, `x`) whose loop offsets
pass the `range` conditions `y < height` and `x < width`. -/
theorem mem_compute_blocks {s : SequentialSampler} {blk : Block}
    (hh : 0 < s.sample_size.1) (hw : 0 < s.sample_size.2) :
    blk ∈ s.compute_blocks ↔
      ∃ k j : Nat,
        -s.bound + s.sample_size.1 * (k : Int) < s.band_collection.height ∧
        -s.bound + s.sample_size.2 * (j : Int) < s.band_collection.width ∧
        blk = s.mkBlock (-s.bound + s.sample_size.1 * (k : Int))
          (-s.bound + s.sample_size.2 * (j : Int)) := by
  rw [compute_blocks_eq_flatMap]
  simp only [List.mem_flatMap, List.mem_map]
  constructor
  · rintro ⟨y, hy, x, hx, rfl⟩
    rw [mem_pyRange hh] at hy
    rw [mem_pyRange hw] at hx
    obtain ⟨k, rfl, hky⟩ := hy
    obtain ⟨j, rfl, hjx⟩ := hx
    exact ⟨k, j, hky, hjx, rfl⟩
  · rintro ⟨k, j, hky, hjx, rfl⟩
    refine ⟨-s.bound + s.sample_size.1 * (k : Int), ?_,
      -s.bound + s.sample_size.2 * (j : Int), ?_, rfl⟩
    · exact (mem_pyRange hh).mpr ⟨k, rfl, hky⟩
    · exact (mem_pyRange hw).mpr ⟨j, rfl, hjx⟩

/-- The trimmed region of the block of loop indices `(k, j)` is the
rectangle `[h k, min (h (k+1)) H) × [w j, min (w (j+1)) W)`. -/
theorem inTrimmed_mkBlock {s : SequentialSampler} (k j : Nat) (r c : Int) :
    (s.mkBlock (-s.bound + s.sample_size.1 * (k : Int))
        (-s.bound + s.sample_size.2 * (j : Int))).inTrimmed r c ↔
      (s.sample_size.1 * (k : Int) ≤ r ∧ r < s.sample_size.1 * ((k : Int) + 1) ∧
        r < s.band_collection.height) ∧
      (s.sample_size.2 * (j : Int) ≤ c ∧ c < s.sample_size.2 * ((j : Int) + 1) ∧
        c < s.band_collection.width) := by
  unfold SequentialSampler.mkBlock Block.inTrimmed
  simp only
  have e1 : s.sample_size.1 * ((k : Int) + 1) = s.sample_size.1 * (k : Int) + s.sample_size.1 := by
    ring
  have e2 : s.sample_size.2 * ((j : Int) + 1) = s.sample_size.2 * (j : Int) + s.sample_size.2 := by
    ring
  rw [e1, e2]
  generalize s.sample_size.1 * (k : Int) = A
  generalize s.sample_size.2 * (j : Int) = B
  omega

/-- Two loop rows whose trimmed row intervals both contain a point coincide. -/
theorem loop_index_eq_of_overlap {h r : Int} (hh : 0 < h) {k k' : Nat}
    (h1 : h * (k : Int) ≤ r) (h2 : r < h * ((k : Int) + 1))
    (h1' : h * (k' : Int) ≤ r) (h2' : r < h * ((k' : Int) + 1)) :
    k = k' := by
  rcases Nat.lt_trichotomy k k' with hlt | heq | hgt
  · exfalso
    have hc : ((k : Int) + 1) ≤ (k' : Int) := by exact_mod_cast hlt
    have hm := mul_le_mul_of_nonneg_left hc (le_of_lt hh)
    linarith
  · exact heq
  · exfalso
    have hc : ((k' : Int) + 1) ≤ (k : Int) := by exact_mod_cast hgt
    have hm := mul_le_mul_of_nonneg_left hc (le_of_lt hh)
    linarith

/-- Every non-negative point lies in exactly one loop-step interval. -/
theorem exists_loop_index {h r : Int} (hh : 0 < h) (hr : 0 ≤ r) :
    ∃ k : Nat, h * (k : Int) ≤ r ∧ r < h * ((k : Int) + 1) := by
  have e : ((r / h).toNat : Int) = r / h :=
    Int.toNat_of_nonneg (Int.ediv_nonneg hr (le_of_lt hh))
  have h1 := Int.ediv_add_emod r h
  refine ⟨(r / h).toNat, ?_, ?_⟩
  · rw [e]
    have h2 := Int.emod_nonneg r (ne_of_gt hh)
    linarith
  · rw [e]
    have h2 := Int.emod_lt_of_pos r hh
    have e2 : h * (r / h + 1) = h * (r / h) + h := by ring
    rw [e2]
    linarith

/-- The inner loop of `_compute_blocks` runs at least once when the raster is
non-degenerate. -/
theorem xCount_pos {s : SequentialSampler} (hW : 0 < s.band_collection.width)
    (hw : 0 < s.sample_size.2) (hb : 0 ≤ s.bound) : 0 < s.xCount := by
  have h0 := @lt_pyRangeLen (-s.bound) s.band_collection.width s.sample_size.2 hw 0
  have : -s.bound + s.sample_size.2 * ((0 : Nat) : Int) < s.band_collection.width := by
    simp only [Nat.cast_zero, mul_zero, add_zero]
    omega
  exact h0.mpr this

/-- C1: for a raster of positive extent `(H, W)`, positive pure sample size
`(h, w)` and non-negative bound, the trimmed write regions of the blocks
produced by `_compute_blocks` are pairwise disjoint and their union is
exactly `[0, H) × [0, W)`. -/
theorem c1_trimmed_regions_tile (s : SequentialSampler)
    (hH : 0 < s.band_collection.height) (hW : 0 < s.band_collection.width)
    (hh : 0 < s.sample_size.1) (hw : 0 < s.sample_size.2) (hb : 0 ≤ s.bound) :
    (s.compute_blocks.Pairwise fun b1 b2 =>
      ∀ r c : Int, ¬(b1.inTrimmed r c ∧ b2.inTrimmed r c)) ∧
    (∀ r c : Int,
      (0 ≤ r ∧ r < s.band_collection.height ∧ 0 ≤ c ∧ c < s.band_collection.width) ↔
      ∃ blk ∈ s.compute_blocks, blk.inTrimmed r c) := by
  constructor
  · rw [compute_blocks_eq_map, List.pairwise_map]
    refine List.Pairwise.imp ?_ (List.pairwise_lt_range _)
    intro i i' hlt r c hcon
    obtain ⟨hin1, hin2⟩ := hcon
    rw [inTrimmed_mkBlock] at hin1 hin2
    obtain ⟨⟨ha1, ha2, _⟩, hb1, hb2, _⟩ := hin1
    obtain ⟨⟨ha1', ha2', _⟩, hb1', hb2', _⟩ := hin2
    have hk := loop_index_eq_of_overlap hh ha1 ha2 ha1' ha2'
    have hj := loop_index_eq_of_overlap hw hb1 hb2 hb1' hb2'
    have heq : i = i' := by
      calc i = s.xCount * (i / s.xCount) + i % s.xCount := (Nat.div_add_mod i s.xCount).symm
        _ = s.xCount * (i' / s.xCount) + i' % s.xCount := by rw [hk, hj]
        _ = i' := Nat.div_add_mod i' s.xCount
    omega
  · intro r c
    constructor
    · rintro ⟨hr0, hrH, hc0, hcW⟩
      obtain ⟨k, hk1, hk2⟩ := exists_loop_index hh hr0
      obtain ⟨j, hj1, hj2⟩ := exists_loop_index hw hc0
      refine ⟨s.mkBlock (-s.bound + s.sample_size.1 * (k : Int))
        (-s.bound + s.sample_size.2 * (j : Int)), ?_, ?_⟩
      · exact (mem_compute_blocks hh hw).mpr ⟨k, j, by linarith, by linarith, rfl⟩
      · exact (inTrimmed_mkBlock k j r c).mpr ⟨⟨hk1, hk2, hrH⟩, hj1, hj2, hcW⟩
    · rintro ⟨blk, hmem, hin⟩
      obtain ⟨k, j, hky, hjx, rfl⟩ := (mem_compute_blocks hh hw).mp hmem
      rw [inTrimmed_mkBlock] at hin
      obtain ⟨⟨ha1, _, haH⟩, hb1, _, hbW⟩ := hin
      have hk0 : (0 : Int) ≤ s.sample_size.1 * (k : Int) :=
        mul_nonneg (le_of_lt hh) (Int.natCast_nonneg k)
      have hj0 : (0 : Int) ≤ s.sample_size.2 * (j : Int) :=
        mul_nonneg (le_of_lt hw) (Int.natCast_nonneg j)
      exact ⟨by linarith, haH, by linarith, hbW⟩

/-- The concrete sampler of the spec's worked scenario:
`H = W = 5`, `h = w = 2`, `bound = 1`. -/
def sampler5521 : SequentialSampler := ⟨⟨5, 5⟩, (2, 2), 1⟩

/-- A sampler whose bound exceeds a block's bottom overhang:
`H = W = 5`, `h = w = 2`, `bound = 2`. -/
def sampler5522 : SequentialSampler := ⟨⟨5, 5⟩, (2, 2), 2⟩

/-- Concrete instance of C1 at `H = W = 5`, `h = w = 2`, `b = 1`. -/
theorem c1_trimmed_regions_tile_witness :
    ((SequentialSampler.compute_blocks ⟨⟨5, 5⟩, (2, 2), 1⟩).Pairwise fun b1 b2 =>
      ∀ r c : Int, ¬(b1.inTrimmed r c ∧ b2.inTrimmed r c)) ∧
    (∀ r c : Int, (0 ≤ r ∧ r < 5 ∧ 0 ≤ c ∧ c < 5) ↔
      ∃ blk ∈ SequentialSampler.compute_blocks ⟨⟨5, 5⟩, (2, 2), 1⟩, blk.inTrimmed r c) :=
  c1_trimmed_regions_tile ⟨⟨5, 5⟩, (2, 2), 1⟩ (by decide) (by decide) (by decide) (by decide)
    (by decide)

/-- Length of `range(start, stop, step)` as a ceiling division. -/
theorem pyRangeLen_eq_ceilDiv {start stop step : Int} (hstep : 0 < step) :
    pyRangeLen start stop step = (stop - start).toNat ⌈/⌉ step.toNat := by
  rw [Nat.ceilDiv_eq_add_pred_div]
  unfold pyRangeLen
  congr 1
  omega

/-- C3: `_compute_blocks` enumerates its blocks in row-major order, the
outer loop index `k` standing for `y = -b + h k` (admitted exactly while
`y < H`), the inner index `j` for `x = -b + w j` (while `x < W`), block `i`
of the list having loop indices `(i / xCount, i % xCount)`, read extent
`(h + 2 b) × (w + 2 b)`, left and top trim `b`, and right and bottom trims
`max b (x + width - W)` and `max b (y + height - H)`. -/
theorem c3_row_major_enumeration (s : SequentialSampler)
    (hh : 0 < s.sample_size.1) (hw : 0 < s.sample_size.2) :
    (∀ k : Nat, k < s.yCount ↔
      -s.bound + s.sample_size.1 * (k : Int) < s.band_collection.height) ∧
    (∀ j : Nat, j < s.xCount ↔
      -s.bound + s.sample_size.2 * (j : Int) < s.band_collection.width) ∧
    s.compute_blocks = (List.range (s.yCount * s.xCount)).map fun i =>
      { x := -s.bound + s.sample_size.2 * ((i % s.xCount : Nat) : Int),
        y := -s.bound + s.sample_size.1 * ((i / s.xCount : Nat) : Int),
        height := s.sample_size.1 + 2 * s.bound,
        width := s.sample_size.2 + 2 * s.bound,
        bounds := ((s.bound,
          max s.bound (-s.bound + s.sample_size.1 * ((i / s.xCount : Nat) : Int) +
            (s.sample_size.1 + 2 * s.bound) - s.band_collection.height)),
          (s.bound,
          max s.bound (-s.bound + s.sample_size.2 * ((i % s.xCount : Nat) : Int) +
            (s.sample_size.2 + 2 * s.bound) - s.band_collection.width))) } := by
  refine ⟨fun k => lt_pyRangeLen hh k, fun j => lt_pyRangeLen hw j, ?_⟩
  rw [compute_blocks_eq_map]
  rfl

/-- Concrete instance of C3 at `H = W = 5`, `h = w = 2`, `b = 1`. -/
theorem c3_row_major_enumeration_witness :
    (∀ k : Nat, k < sampler5521.yCount ↔
      -sampler5521.bound + sampler5521.sample_size.1 * (k : Int) <
        sampler5521.band_collection.height) ∧
    (∀ j : Nat, j < sampler5521.xCount ↔
      -sampler5521.bound + sampler5521.sample_size.2 * (j : Int) <
        sampler5521.band_collection.width) ∧
    sampler5521.compute_blocks =
      (List.range (sampler5521.yCount * sampler5521.xCount)).map fun i =>
      { x := -sampler5521.bound + sampler5521.sample_size.2 * ((i % sampler5521.xCount : Nat) : Int),
        y := -sampler5521.bound + sampler5521.sample_size.1 * ((i / sampler5521.xCount : Nat) : Int),
        height := sampler5521.sample_size.1 + 2 * sampler5521.bound,
        width := sampler5521.sample_size.2 + 2 * sampler5521.bound,
        bounds := ((sampler5521.bound,
          max sampler5521.bound (-sampler5521.bound +
            sampler5521.sample_size.1 * ((i / sampler5521.xCount : Nat) : Int) +
            (sampler5521.sample_size.1 + 2 * sampler5521.bound) -
            sampler5521.band_collection.height)),
          (sampler5521.bound,
          max sampler5521.bound (-sampler5521.bound +
            sampler5521.sample_size.2 * ((i % sampler5521.xCount : Nat) : Int) +
            (sampler5521.sample_size.2 + 2 * sampler5521.bound) -
            sampler5521.band_collection.width))) } :=
  c3_row_major_enumeration sampler5521 (by decide) (by decide)

/-- C5: every block whose read window stays inside the raster on the right
and at the bottom has `bounds = [[b, b], [b, b]]`. -/
theorem c5_interior_bounds (s : SequentialSampler) (blk : Block)
    (hb : 0 ≤ s.bound) (hh : 0 < s.sample_size.1) (hw : 0 < s.sample_size.2)
    (hmem : blk ∈ s.compute_blocks)
    (hx : blk.x + blk.width ≤ s.band_collection.width)
    (hy : blk.y + blk.height ≤ s.band_collection.height) :
    blk.bounds = ((s.bound, s.bound), (s.bound, s.bound)) := by
  obtain ⟨k, j, _, _, rfl⟩ := (mem_compute_blocks hh hw).mp hmem
  simp only [SequentialSampler.mkBlock] at hx hy ⊢
  simp only [Prod.mk.injEq, true_and, and_true, eq_self_iff_true]
  omega

/-- Concrete instance of C5: the interior block at `x = y = -1` of the
`5 × 5`, `h = w = 2`, `b = 1` sampler. -/
theorem c5_interior_bounds_witness :
    (⟨-1, -1, 4, 4, ((1, 1), (1, 1))⟩ : Block).bounds = ((1, 1), (1, 1)) :=
  c5_interior_bounds sampler5521 ⟨-1, -1, 4, 4, ((1, 1), (1, 1))⟩ (by decide) (by decide)
    (by decide) (by decide) (by decide) (by decide)

/-- C6 fails as stated: in the `5 × 5` raster with `h = w = 2` and `b = 2`,
the block at `y = 0` has `y + height = 6 > 5 = H` (it overhangs the bottom),
yet `y + height - bottom_trim = 4 ≠ 5`, because the overhang `1` is smaller
than the bound `2`. -/
theorem c6_counterexample :
    ¬ (∀ blk ∈ sampler5522.compute_blocks,
        (sampler5522.band_collection.height < blk.y + blk.height →
          blk.y + blk.height - blk.bounds.1.2 = sampler5522.band_collection.height) ∧
        (sampler5522.band_collection.width < blk.x + blk.width →
          blk.x + blk.width - blk.bounds.2.2 = sampler5522.band_collection.width)) := by
  decide

/-- C6 (amended): for every block whose read window overhangs the bottom
edge by at least the bound (`y + height - H ≥ b`), the bottom trim satisfies
`y + height - bottom_trim = H`; analogously on the right. -/
theorem c6_edge_trim_amended (s : SequentialSampler) (blk : Block)
    (hh : 0 < s.sample_size.1) (hw : 0 < s.sample_size.2)
    (hmem : blk ∈ s.compute_blocks) :
    (s.bound ≤ blk.y + blk.height - s.band_collection.height →
      blk.y + blk.height - blk.bounds.1.2 = s.band_collection.height) ∧
    (s.bound ≤ blk.x + blk.width - s.band_collection.width →
      blk.x + blk.width - blk.bounds.2.2 = s.band_collection.width) := by
  obtain ⟨k, j, _, _, rfl⟩ := (mem_compute_blocks hh hw).mp hmem
  simp only [SequentialSampler.mkBlock]
  omega

/-- Concrete instance of the amended C6: the last-row block at
`x = -1, y = 3` of the `5 × 5`, `h = w = 2`, `b = 1` sampler. -/
theorem c6_edge_trim_amended_witness :
    ((1 : Int) ≤ 3 + 4 - 5 → (3 : Int) + 4 - 2 = 5) ∧
    ((1 : Int) ≤ -1 + 4 - 5 → (-1 : Int) + 4 - 1 = 5) :=
  c6_edge_trim_amended sampler5521 ⟨-1, 3, 4, 4, ((1, 2), (1, 1))⟩ (by decide) (by decide)
    (by decide)

/-- C7: in the `5 × 5` raster with `h = w = 2` and `b = 1`, every block has
read window `4 × 4`; the block at `x = y = -1` has right trim
`max 1 (-1 + 4 - 5) = 1` and bottom trim `1`; every block of the last loop
row (`y = 3`) has bottom trim `> 1` and every block of the last loop column
(`x = 3`) has right trim `> 1`. -/
theorem c7_concrete_blocks :
    (∀ blk ∈ sampler5521.compute_blocks, blk.height = 4 ∧ blk.width = 4) ∧
    (∀ blk ∈ sampler5521.compute_blocks, blk.x = -1 ∧ blk.y = -1 →
      blk.bounds.2.2 = max 1 (-1 + 4 - 5) ∧ blk.bounds.2.2 = 1 ∧ blk.bounds.1.2 = 1) ∧
    (∀ blk ∈ sampler5521.compute_blocks, blk.y = 3 → 1 < blk.bounds.1.2) ∧
    (∀ blk ∈ sampler5521.compute_blocks, blk.x = 3 → 1 < blk.bounds.2.2) := by
  decide

/-- C9: `len(SequentialSampler)` is `⌈(H + b) / h⌉ * ⌈(W + b) / w⌉`. -/
theorem c9_len_eq_ceil_product (s : SequentialSampler)
    (hH : 0 < s.band_collection.height) (hW : 0 < s.band_collection.width)
    (hh : 0 < s.sample_size.1) (hw : 0 < s.sample_size.2) (hb : 0 ≤ s.bound) :
    s.len = (s.band_collection.height + s.bound).toNat ⌈/⌉ s.sample_size.1.toNat *
      ((s.band_collection.width + s.bound).toNat ⌈/⌉ s.sample_size.2.toNat) := by
  have hl : s.len = s.yCount * s.xCount := by
    unfold SequentialSampler.len
    rw [compute_blocks_eq_map]
    simp
  have e1 : s.yCount = (s.band_collection.height + s.bound).toNat ⌈/⌉ s.sample_size.1.toNat := by
    unfold SequentialSampler.yCount
    rw [pyRangeLen_eq_ceilDiv hh]
    congr 2
    ring
  have e2 : s.xCount = (s.band_collection.width + s.bound).toNat ⌈/⌉ s.sample_size.2.toNat := by
    unfold SequentialSampler.xCount
    rw [pyRangeLen_eq_ceilDiv hw]
    congr 2
    ring
  rw [hl, e1, e2]

/-- Concrete instance of C9: the `5 × 5`, `h = w = 2`, `b = 1` sampler has
`⌈6/2⌉ * ⌈6/2⌉ = 9` blocks. -/
theorem c9_len_eq_ceil_product_witness :
    sampler5521.len = (6 : Int).toNat ⌈/⌉ (2 : Int).toNat * ((6 : Int).toNat ⌈/⌉ (2 : Int).toNat) :=
  c9_len_eq_ceil_product sampler5521 (by decide) (by decide) (by decide) (by decide) (by decide)

/-- A Python slice `l[a : len(l) - b]` with `0 ≤ a`, `0 ≤ b` and
`a + b ≤ len l` removes the first `a` and the last `b` elements. -/
theorem pySlice_trim {α : Type} (l : List α) (a b : Int) (ha : 0 ≤ a) (hb : 0 ≤ b)
    (hfit : a + b ≤ (l.length : Int)) :
    pySlice l a ((l.length : Int) - b) =
      (l.drop a.toNat).take (l.length - a.toNat - b.toNat) := by
  unfold pySlice pyIdx
  rw [if_neg (by omega), if_neg (by omega)]
  have e1 : (min a ((l.length : Int))).toNat = a.toNat := by omega
  have e2 : (min ((l.length : Int) - b) ((l.length : Int))).toNat = l.length - b.toNat := by
    omega
  have e3 : a.toNat + (l.length - a.toNat - b.toNat) = l.length - b.toNat := by omega
  rw [e1, e2, List.take_drop, e3]

/-- A Python slice `l[0 : j]` with `j ≥ len l` is the whole list. -/
theorem pySlice_all {α : Type} (l : List α) (j : Int) (hj : (l.length : Int) ≤ j) :
    pySlice l 0 j = l := by
  unfold pySlice pyIdx
  rw [if_neg (by omega), if_neg (by omega)]
  have e1 : (min (0 : Int) ((l.length : Int))).toNat = 0 := by omega
  have e2 : (min j ((l.length : Int))).toNat = l.length := by omega
  rw [e1, e2, List.drop_zero, List.take_length]

/-- C4: a `write` call with non-empty `bounds = [[t, btm], [l, r]]` writes
the raster with its first `t` rows, last `btm` rows, first `l` columns and
last `r` columns removed, into the window of origin `(x + l, y + t)` and
extent `(width - l - r, height - t - btm)`, and returns `None`. -/
theorem c4_crop_and_shift (raster : List (List Int)) (x y width height t btm l r : Int)
    (hrect : ∀ row ∈ raster, (row.length : Int) = shape1 raster)
    (ht : 0 ≤ t) (hbtm : 0 ≤ btm) (hl : 0 ≤ l) (hr : 0 ≤ r)
    (hfit0 : t + btm ≤ shape0 raster) (hfit1 : l + r ≤ shape1 raster) :
    SampleWindowWriter.write raster x y width height (some ((t, btm), (l, r))) =
      ({ data := ((raster.drop t.toNat).take (raster.length - t.toNat - btm.toNat)).map
           (fun row => (row.drop l.toNat).take (row.length - l.toNat - r.toNat)),
         window := ((y + t, y + t + (height - t - btm)),
                    (x + l, x + l + (width - l - r))) },
       none) := by
  simp only [SampleWindowWriter.write, numpySlice2]
  simp only [Prod.mk.injEq, WriteOp.mk.injEq]
  refine ⟨⟨?_, ?_, ?_⟩, trivial⟩
  · unfold shape0 at hfit0 ⊢
    rw [pySlice_trim raster t btm ht hbtm hfit0]
    apply List.map_congr_left
    intro row hrow
    have hmem : row ∈ raster := List.drop_subset _ _ (List.take_subset _ _ hrow)
    have hlen : (row.length : Int) = shape1 raster := hrect row hmem
    rw [← hlen]
    exact pySlice_trim row l r hl hr (by omega)
  · exact ⟨trivial, by omega⟩
  · exact ⟨trivial, by omega⟩

/-- Concrete instance of C4: crop one row from the top and one column from
the right of a `3 × 3` raster. -/
theorem c4_crop_and_shift_witness :
    SampleWindowWriter.write [[1, 2, 3], [4, 5, 6], [7, 8, 9]] 10 20 3 3
        (some ((1, 0), (0, 1))) =
      ({ data := [[4, 5], [7, 8]], window := ((21, 23), (10, 12)) }, none) :=
  c4_crop_and_shift [[1, 2, 3], [4, 5, 6], [7, 8, 9]] 10 20 3 3 1 0 0 1 (by decide)
    (by decide) (by decide) (by decide) (by decide) (by decide) (by decide)

/-- C10: `bounds = [[0, 0], [0, 0]]` is truthy, so the cropping branch runs,
but its zero trims leave the raster, the origin and the extent unchanged:
the call is identical to `bounds = None`. -/
theorem c10_zero_bounds_identity (raster : List (List Int)) (x y width height : Int)
    (hrect : ∀ row ∈ raster, (row.length : Int) = shape1 raster) :
    SampleWindowWriter.write raster x y width height (some ((0, 0), (0, 0))) =
      SampleWindowWriter.write raster x y width height none := by
  simp only [SampleWindowWriter.write, numpySlice2]
  simp only [Prod.mk.injEq, WriteOp.mk.injEq]
  refine ⟨⟨?_, ?_, ?_⟩, trivial⟩
  · rw [pySlice_all raster _ (by unfold shape0; omega)]
    have hrows : ∀ row ∈ raster, pySlice row 0 (shape1 raster - 0) = row := by
      intro row hrow
      have := hrect row hrow
      exact pySlice_all row _ (by omega)
    have hmapid : raster.map (fun row => pySlice row 0 (shape1 raster - 0)) =
        raster.map (fun row => row) := List.map_congr_left hrows
    rw [hmapid, List.map_id']
  · omega
  · omega

/-- Concrete instance of C10 on a `2 × 2` raster. -/
theorem c10_zero_bounds_identity_witness :
    SampleWindowWriter.write [[1, 2], [3, 4]] 5 6 2 2 (some ((0, 0), (0, 0))) =
      SampleWindowWriter.write [[1, 2], [3, 4]] 5 6 2 2 none :=
  c10_zero_bounds_identity [[1, 2], [3, 4]] 5 6 2 2 (by decide)

/-- C2 fails on the code: `SampleCollectionWindowWriter.write` forwards
`(x, y, height, width)` positionally into the slots `(x, y, width, height)`
of `SampleWindowWriter.write`, so with `height = 3` and `width = 2` the
single-channel writer receives `width = 3` and `height = 2` and writes its
`3 × 2` channel into the window `((y, y + 2), (x, x + 3))` of `2` rows and
`3` columns — the extents are swapped, not identical. -/
theorem c2_swapped_extent_eval :
    SampleCollectionWindowWriter.write 1 [[[1, 2], [3, 4], [5, 6]]] 0 0 3 2 none =
      [({ data := [[1, 2], [3, 4], [5, 6]], window := ((0, 2), (0, 3)) }, none)] := by
  decide

/-- C8: invoking the base `Predictor.predict` on any sample terminates with
the `TypeError` raised by calling the non-callable `NotImplemented`
singleton — an exception, but not `NotImplementedError`. -/
theorem c8_predict_raises_type_error :
    ∀ sample : List (List Int),
      Predictor.predict sample = Except.error PyExc.typeError ∧
      PyExc.typeError ≠ PyExc.notImplementedError :=
  fun _ => ⟨rfl, by decide⟩

/-- Concrete instance of C8 on an empty sample. -/
theorem c8_predict_raises_type_error_witness :
    Predictor.predict [] = Except.error PyExc.typeError ∧
      PyExc.typeError ≠ PyExc.notImplementedError :=
  c8_predict_raises_type_error []
